import Mathlib

/-
Verification development for src/include/igl/copyleft/cgal/extract_cells.cpp
(libigl). The combinatorial core of the file is embedded shallowly:

* faces, patches, unique edges and half-edge occurrences are index lists;
* the geometric collaborators that live in other files of the repository
  (order_facets_around_edge, outer_facet, closest_facet, unique_edge_map,
  extract_manifold_patches, facet_components) are taken as parameters, as the
  file itself only consumes their outputs;
* C++ assertions and the throw in is_consistent become Except errors, so an
  aborting run is an Except.error and a normal return is an Except.ok;
* the breadth-first peel additionally records a ghost trace of the
  side-propagation decisions it makes, so that statements about every
  reachable peel step can be expressed; the trace does not influence the
  computed cells.
-/

namespace IglExtractCells

/-- Equality of Except results is decidable; used to evaluate the embedded
functions on concrete inputs. -/
instance exceptDecEq {ε α : Type} [DecidableEq ε] [DecidableEq α] :
    DecidableEq (Except ε α) := fun x y =>
  match x, y with
  | .ok a, .ok b =>
    if h : a = b then isTrue (by rw [h]) else isFalse (fun hh => by injection hh; contradiction)
  | .error e, .error f =>
    if h : e = f then isTrue (by rw [h]) else isFalse (fun hh => by injection hh; contradiction)
  | .ok _, .error _ => isFalse (fun hh => by injection hh)
  | .error _, .ok _ => isFalse (fun hh => by injection hh)

/-! ## Edge consistency and signed tags (lines 332 to 356, 386 to 391) -/

/-- edge_index_to_face_index (lines 332 to 335): a face-edge index into the
3 times num_faces list of directed edges maps to its owning face. -/
def edge_index_to_face_index (numFaces index : Nat) : Nat := index % numFaces

/-- is_consistent (lines 344 to 356): decide whether face fid is oriented
consistently, given the directed edge (s, d); the row of F is read through
getD with a default, and a face matching neither rotation is the thrown
"Invalid face!". -/
def is_consistent (F : List (Nat × Nat × Nat)) (fid s d : Nat) : Except String Bool :=
  if (F.getD fid (0, 0, 0)).1 = s ∧ (F.getD fid (0, 0, 0)).2.1 = d then .ok false
  else if (F.getD fid (0, 0, 0)).2.1 = s ∧ (F.getD fid (0, 0, 0)).2.2 = d then .ok false
  else if (F.getD fid (0, 0, 0)).2.2 = s ∧ (F.getD fid (0, 0, 0)).1 = d then .ok false
  else if (F.getD fid (0, 0, 0)).1 = d ∧ (F.getD fid (0, 0, 0)).2.1 = s then .ok true
  else if (F.getD fid (0, 0, 0)).2.1 = d ∧ (F.getD fid (0, 0, 0)).2.2 = s then .ok true
  else if (F.getD fid (0, 0, 0)).2.2 = d ∧ (F.getD fid (0, 0, 0)).1 = s then .ok true
  else .error "Invalid face!"

/-- Spec-side notion: face fid contains the directed pair (s, d) as
consecutive vertices in some cyclic rotation of its three vertices. -/
def cyclicHas (F : List (Nat × Nat × Nat)) (fid s d : Nat) : Prop :=
  ((F.getD fid (0, 0, 0)).1 = s ∧ (F.getD fid (0, 0, 0)).2.1 = d) ∨
  ((F.getD fid (0, 0, 0)).2.1 = s ∧ (F.getD fid (0, 0, 0)).2.2 = d) ∨
  ((F.getD fid (0, 0, 0)).2.2 = s ∧ (F.getD fid (0, 0, 0)).1 = d)

instance (F : List (Nat × Nat × Nat)) (fid s d : Nat) : Decidable (cyclicHas F fid s d) := by
  unfold cyclicHas
  infer_instance

/-- Lines 386 to 391: the signed face id pushed into signed_adj_faces for one
half-edge occurrence owned by face fid: (fid+1) times +1 or -1 according to
is_consistent. -/
def signedTag (F : List (Nat × Nat × Nat)) (fid s d : Nat) : Except String Int :=
  match is_consistent F fid s d with
  | .error e => .error e
  | .ok cons => .ok ((fid + 1 : Int) * (if cons then 1 else -1))

/-! ## Bounding boxes and candidate components (lines 179 to 204) -/

/-- bbox_intersects (lines 180 to 189): boxes of components ci and cj
intersect unless one of the six strict separating comparisons holds.
Coordinates are exact rationals in the source (CGAL exact kernel). -/
def bbox_intersects (bmax bmin : List (ℚ × ℚ × ℚ)) (ci cj : Nat) : Bool :=
  !(decide ((bmax.getD ci (0, 0, 0)).1 < (bmin.getD cj (0, 0, 0)).1) ||
    decide ((bmax.getD ci (0, 0, 0)).2.1 < (bmin.getD cj (0, 0, 0)).2.1) ||
    decide ((bmax.getD ci (0, 0, 0)).2.2 < (bmin.getD cj (0, 0, 0)).2.2) ||
    decide ((bmax.getD cj (0, 0, 0)).1 < (bmin.getD ci (0, 0, 0)).1) ||
    decide ((bmax.getD cj (0, 0, 0)).2.1 < (bmin.getD ci (0, 0, 0)).2.1) ||
    decide ((bmax.getD cj (0, 0, 0)).2.2 < (bmin.getD ci (0, 0, 0)).2.2))

/-- Lines 197 to 201: the candidate components paired with component i are
exactly the other components whose boxes pass bbox_intersects. -/
def candidate_comps (bmax bmin : List (ℚ × ℚ × ℚ)) (numComps i : Nat) : List Nat :=
  (List.range numComps).filter (fun j => decide (j ≠ i) && bbox_intersects bmax bmin i j)

/-! ## Nesting resolution (lines 241 to 275) -/

/-- One iteration of the loop at lines 244 to 267 for component i: look up its
outer cell, its recorded ambient components and the ambient cells recorded at
the outer cell, and either record the embedding parent or fail on the
assertions.  embedded INVALID entries are modelled as none. -/
def resolveStep (numRaw : Nat) (outerCells : List Nat) (AC ACells : List (List Nat))
    (emb : List (Option Nat)) (i : Nat) : Except String (List (Option Nat)) :=
  if (AC.getD i []).length = (ACells.getD (outerCells.getD i 0) []).length then
    if 0 < (AC.getD i []).length then
      match ((AC.getD i []).zip (ACells.getD (outerCells.getD i 0) [])).find?
          (fun jc => (AC.getD jc.1 []).length == (AC.getD i []).length - 1) with
      | some jc => .ok (emb.set (outerCells.getD i 0) (some jc.2))
      | none => .error "no embedded component"
    else .ok (emb.set (outerCells.getD i 0) (some numRaw))
  else .error "ambient bookkeeping mismatch"

/-- The loop at lines 244 to 267 over the listed components. -/
def resolveFold (numRaw : Nat) (outerCells : List Nat) (AC ACells : List (List Nat)) :
    List (Option Nat) → List Nat → Except String (List (Option Nat))
  | emb, [] => .ok emb
  | emb, i :: rest =>
    match resolveStep numRaw outerCells AC ACells emb i with
    | .error e => .error e
    | .ok emb2 => resolveFold numRaw outerCells AC ACells emb2 rest

/-- Lines 241 to 267: embedded_cells, starting from all INVALID (none). -/
def resolveEmbedding (numRaw : Nat) (outerCells : List Nat) (AC ACells : List (List Nat)) :
    Except String (List (Option Nat)) :=
  resolveFold numRaw outerCells AC ACells (List.replicate numRaw none)
    (List.range outerCells.length)

/-- Lines 268 to 275: every raw cell id with a recorded embedding parent is
rewritten to that parent; others are kept. -/
def rewriteRow (emb : List (Option Nat)) (r : Nat × Nat) : Nat × Nat :=
  (match emb.getD r.1 none with
   | some e => e
   | none => r.1,
   match emb.getD r.2 none with
   | some e => e
   | none => r.2)

/-! ## Final compaction (lines 277 to 308) -/

/-- One lookup-or-assign of mapped_indices (lines 287 to 300) on one raw cell
id: the state is (mapped_indices, count); the result also carries the final id
given to the value. -/
def compactStep (st : List (Option Nat) × Nat) (v : Nat) : (List (Option Nat) × Nat) × Nat :=
  match st.1.getD v none with
  | some c => (st, c)
  | none => ((st.1.set v (some st.2), st.2 + 1), st.2)

/-- The loop at lines 283 to 303: patches in increasing index order, positive
(side 0) entry before negative (side 1) entry; returns the relabeled rows and
the final count. -/
def compactRows : (List (Option Nat) × Nat) → List (Nat × Nat) → List (Nat × Nat) × Nat
  | st, [] => ([], st.2)
  | st, r :: rest =>
    (((compactStep st r.1).2, (compactStep (compactStep st r.1).1 r.2).2) ::
        (compactRows (compactStep (compactStep st r.1).1 r.2).1 rest).1,
      (compactRows (compactStep (compactStep st r.1).1 r.2).1 rest).2)

/-- Lines 277 to 281: mapped_indices starts all INVALID, the infinite cell
sentinel (raw id numRaw) is mapped to 0 first and count starts at 1. -/
def compactInit (numRaw : Nat) : List (Option Nat) × Nat :=
  ((List.replicate (numRaw + 1) (none : Option Nat)).set numRaw (some 0), 1)

/-- Proof-side invariant of the compaction state: every assigned final id is
below count, the infinite-cell sentinel is mapped to 0 and is the only raw id
mapped to 0, and count is at least one. -/
def compactInv (numRaw : Nat) (st : List (Option Nat) × Nat) : Prop :=
  (∀ v c, st.1.getD v none = some c → c < st.2)
  ∧ st.1.getD numRaw none = some 0
  ∧ 1 ≤ st.2
  ∧ (∀ v, st.1.getD v none = some 0 → v = numRaw)

/-- Lines 241 to 308: resolve the nesting of outer cells, rewrite the raw
per-patch cells, then compact to the final dense labels; the count is the
returned total number of cells. -/
def resolveAndCompact (numRaw : Nat) (rawCells : List (Nat × Nat)) (outerCells : List Nat)
    (AC ACells : List (List Nat)) : Except String (List (Nat × Nat) × Nat) :=
  match resolveEmbedding numRaw outerCells AC ACells with
  | .error e => .error e
  | .ok emb => .ok (compactRows (compactInit numRaw) (rawCells.map (rewriteRow emb)))

/-! ## The single-component peel (lines 319 to 542) -/

/-- Per-patch, two-sided cell labels; entry 2p+s holds the label of side s of
patch p, none being the INVALID (unlabeled) sentinel of line 425. -/
abbrev Cells := List (Option Nat)

def getCell (cells : Cells) (p s : Nat) : Option Nat := cells.getD (2 * p + s) none

def setCell (cells : Cells) (p s c : Nat) : Cells := cells.set (2 * p + s) (some c)

/-- The data the peel reads: P, EMAP, the per-patch non-manifold face-edge
adjacency, and the per-unique-edge cyclic orders and orientation flags
computed at lines 361 to 422. -/
structure PeelCtx where
  numFaces : Nat
  numPatches : Nat
  P : List Nat
  EMAP : List Nat
  patchEdgeAdj : List (List Nat)
  orders : List (List Nat)
  orientations : List (List Bool)
deriving Repr, DecidableEq

/-- One ghost trace record for one processed edge occurrence: the side being
peeled, the two orientation flags looked up at the edge, and the side computed
for the neighbor patch. -/
structure PeelStep where
  side : Nat
  cons : Bool
  nextCons : Bool
  nextSide : Nat
deriving Repr, DecidableEq

/-- Line 506: the side of the neighbor patch,
(next_cons != cons) ? side : abs(side - 1). -/
def sideStep (cons nextCons : Bool) (side : Nat) : Nat :=
  if nextCons ≠ cons then side else 1 - side

/-- What the neighbor of one edge occurrence is: lines 470 to 506.  The
assertion at line 483 (the occurrence is always found in the cyclic order,
true for every context built by buildEdgeData) is not modelled: a missing
occurrence reads list defaults instead. -/
structure StepInfo where
  nextPatch : Nat
  nextSide : Nat
  cons : Bool
  nextCons : Bool
deriving Repr, DecidableEq

def peelStep (ctx : PeelCtx) (side : Nat) (ei : Nat) : StepInfo :=
  let uei := ctx.EMAP.getD ei 0
  let order := ctx.orders.getD uei []
  let orientation := ctx.orientations.getD uei []
  let valence := order.length
  let curr := order.findIdx (fun x => x == ei)
  let cons := orientation.getD curr false
  let next :=
    if side = 0 then
      (if cons then (curr + 1) % valence else (curr + valence - 1) % valence)
    else
      (if cons then (curr + valence - 1) % valence else (curr + 1) % valence)
  let nextEi := order.getD next 0
  let nextCons := orientation.getD next false
  ⟨ctx.P.getD (edge_index_to_face_index ctx.numFaces nextEi) 0,
   sideStep cons nextCons side, cons, nextCons⟩

/-- The mutable state of one peel: the labels, the BFS queue, the ghost
trace. -/
structure PeelState where
  cells : Cells
  queue : List (Nat × Nat)
  trace : List PeelStep
deriving Repr, DecidableEq

/-- Lines 468 to 519, one edge occurrence: compute the neighbor, then label
and enqueue it when unlabeled, do nothing when labeled with the same cell id,
and fail (assert at lines 515 to 517) when labeled differently. -/
def processEdge (ctx : PeelCtx) (cellIdx side : Nat) (st : PeelState) (ei : Nat) :
    Except String PeelState :=
  match getCell st.cells (peelStep ctx side ei).nextPatch (peelStep ctx side ei).nextSide with
  | none =>
    .ok ⟨setCell st.cells (peelStep ctx side ei).nextPatch (peelStep ctx side ei).nextSide cellIdx,
         st.queue ++ [((peelStep ctx side ei).nextPatch, (peelStep ctx side ei).nextSide)],
         st.trace ++ [⟨side, (peelStep ctx side ei).cons, (peelStep ctx side ei).nextCons,
                       (peelStep ctx side ei).nextSide⟩]⟩
  | some c =>
    if c = cellIdx then
      .ok ⟨st.cells, st.queue,
           st.trace ++ [⟨side, (peelStep ctx side ei).cons, (peelStep ctx side ei).nextCons,
                         (peelStep ctx side ei).nextSide⟩]⟩
    else .error "Encountered cell assignment inconsistency"

/-- The inner loop over all face-edges adjacent to the popped patch. -/
def processEdges (ctx : PeelCtx) (cellIdx side : Nat) :
    PeelState → List Nat → Except String PeelState
  | st, [] => .ok st
  | st, ei :: rest =>
    match processEdge ctx cellIdx side st ei with
    | .error e => .error e
    | .ok st2 => processEdges ctx cellIdx side st2 rest

/-- The while loop at lines 457 to 520, with fuel; running out of fuel is an
abnormal return (it cannot happen for the fuel chosen in peel_cell_bd, since
every enqueue labels a previously unlabeled entry). -/
def peelLoop (ctx : PeelCtx) (cellIdx : Nat) : Nat → PeelState → Except String PeelState
  | 0, _ => .error "out of fuel"
  | fuel + 1, st =>
    match st.queue with
    | [] => .ok st
    | (p, s) :: rest =>
      match processEdges ctx cellIdx s ⟨st.cells, rest, st.trace⟩ (ctx.patchEdgeAdj.getD p []) with
      | .error e => .error e
      | .ok st2 => peelLoop ctx cellIdx fuel st2

/-- peel_cell_bd (lines 443 to 521): seed the given side of the given patch
with the cell id and flood across non-manifold edges. -/
def peel_cell_bd (ctx : PeelCtx) (seedPatch seedSide cellIdx : Nat) (cells : Cells)
    (tr : List PeelStep) : Except String (Cells × List PeelStep) :=
  match peelLoop ctx cellIdx (2 * ctx.numPatches + 2)
      ⟨setCell cells seedPatch seedSide cellIdx, [(seedPatch, seedSide)], tr⟩ with
  | .error e => .error e
  | .ok st => .ok (st.cells, st.trace)

/-- One side of the outer loop body (lines 529 to 539): seed a new cell when
the side is still unlabeled, post-incrementing the counter. -/
def seedOne (ctx : PeelCtx) (p s : Nat) (cells : Cells) (count : Nat) (tr : List PeelStep) :
    Except String (Cells × Nat × List PeelStep) :=
  if getCell cells p s = none then
    match peel_cell_bd ctx p s count cells tr with
    | .error e => .error e
    | .ok ct => .ok (ct.1, count + 1, ct.2)
  else .ok (cells, count, tr)

/-- The outer loop at lines 525 to 540 over the listed patches, side 0 then
side 1. -/
def seedPatches (ctx : PeelCtx) :
    List Nat → Cells → Nat → List PeelStep → Except String (Cells × Nat × List PeelStep)
  | [], cells, count, tr => .ok (cells, count, tr)
  | p :: rest, cells, count, tr =>
    match seedOne ctx p 0 cells count tr with
    | .error e => .error e
    | .ok r1 =>
      match seedOne ctx p 1 r1.1 r1.2.1 r1.2.2 with
      | .error e => .error e
      | .ok r2 => seedPatches ctx rest r2.1 r2.2.1 r2.2.2

/-! ## Building the edge data (lines 358 to 422) -/

/-- num_patches = P.maxCoeff() + 1 (line 359). -/
def numPatchesOf (P : List Nat) : Nat := P.foldl max 0 + 1

/-- Line 419: record that the patch of face ei mod num_faces touches the
non-manifold edge through occurrence ei. -/
def pushAdj (pea : List (List Nat)) (pid ei : Nat) : List (List Nat) :=
  pea.set pid (pea.getD pid [] ++ [ei])

/-- Lines 387 to 392: the signed tags of all occurrences adjacent to the
unique edge (s, d). -/
def signedTags (F : List (Nat × Nat × Nat)) (numFaces s d : Nat) :
    List Nat → Except String (List Int)
  | [] => .ok []
  | ei :: rest =>
    match signedTag F (edge_index_to_face_index numFaces ei) s d with
    | .error e => .error e
    | .ok t =>
      match signedTags F numFaces s d rest with
      | .error e => .error e
      | .ok ts => .ok (t :: ts)

/-- Lines 374 to 422: for every non-manifold unique edge, tag the adjacent
occurrences, obtain the cyclic order from the external collaborator
order_facets_around_edge (parameter orderFn, giving a permutation of positions
into the adjacency list), derive the orientation flags, re-index the order to
face-edge indices, and record the patch adjacency.  Manifold edges are
skipped.  Returns (patch_edge_adj, orders, orientations). -/
def buildEdgeData (F : List (Nat × Nat × Nat)) (P : List Nat) (uE : List (Nat × Nat))
    (uE2E : List (List Nat)) (orderFn : Nat → Nat → List Int → List Nat) (numPatches : Nat) :
    Except String (List (List Nat) × List (List Nat) × List (List Bool)) :=
  go (List.range uE.length)
    (List.replicate numPatches [], List.replicate uE.length [], List.replicate uE.length [])
where
  go : List Nat → List (List Nat) × List (List Nat) × List (List Bool) →
      Except String (List (List Nat) × List (List Nat) × List (List Bool))
  | [], acc => .ok acc
  | i :: rest, acc =>
    if 2 < (uE2E.getD i []).length then
      match signedTags F F.length (uE.getD i (0, 0)).1 (uE.getD i (0, 0)).2 (uE2E.getD i []) with
      | .error e => .error e
      | .ok tags =>
        go rest
          ((uE2E.getD i []).foldl
              (fun pea ei => pushAdj pea (P.getD (edge_index_to_face_index F.length ei) 0) ei)
              acc.1,
           acc.2.1.set i
             ((orderFn (uE.getD i (0, 0)).1 (uE.getD i (0, 0)).2 tags).map
               (fun j => (uE2E.getD i []).getD j 0)),
           acc.2.2.set i
             ((orderFn (uE.getD i (0, 0)).1 (uE.getD i (0, 0)).2 tags).map
               (fun j => decide (0 < tags.getD j 0))))
    else go rest acc

/-- extract_cells_single_component (lines 319 to 542): build the edge data,
then peel every still-unlabeled patch side.  The ghost trace of all peel steps
is returned along the labels and the raw cell count. -/
def extract_cells_single_component (F : List (Nat × Nat × Nat)) (P : List Nat)
    (uE : List (Nat × Nat)) (uE2E : List (List Nat)) (EMAP : List Nat)
    (orderFn : Nat → Nat → List Int → List Nat) :
    Except String (Cells × Nat × List PeelStep) :=
  match buildEdgeData F P uE uE2E orderFn (numPatchesOf P) with
  | .error e => .error e
  | .ok d =>
    seedPatches ⟨F.length, numPatchesOf P, P, EMAP, d.1, d.2.1, d.2.2⟩
      (List.range (numPatchesOf P)) (List.replicate (2 * numPatchesOf P) none) 0 []

/-! ## The patch-level and face-level entry points (lines 65 to 309, 24 to 53) -/

/-- Bridge from the option-valued labels to the integer rows consumed by the
nesting resolution; a still-unlabeled side reads as 0 (cannot occur after a
normal return of the peel). -/
def cellsToRows (cells : Cells) (numPatches : Nat) : List (Nat × Nat) :=
  (List.range numPatches).map (fun p => ((getCell cells p 0).getD 0, (getCell cells p 1).getD 0))

/-- extract_cells, patch-level overload (lines 65 to 309).  The recorded
nesting tables outerCells (outer cell of every component), AC (ambient_comps)
and ACells (ambient_cells) are parameters, being the outputs of the loop at
lines 128 to 236 that queries the geometric collaborators outer_facet and
closest_facet. -/
def extract_cells (F : List (Nat × Nat × Nat)) (P : List Nat) (uE : List (Nat × Nat))
    (uE2E : List (List Nat)) (EMAP : List Nat) (orderFn : Nat → Nat → List Int → List Nat)
    (outerCells : List Nat) (AC ACells : List (List Nat)) :
    Except String (List (Nat × Nat) × Nat) :=
  match extract_cells_single_component F P uE uE2E EMAP orderFn with
  | .error e => .error e
  | .ok res => resolveAndCompact res.2.1 (cellsToRows res.1 (numPatchesOf P)) outerCells AC ACells

/-- extract_cells, face-level overload (lines 24 to 53): run the patch-level
extraction, then give every face the row of its patch (lines 47 to 51). -/
def extract_cells_faces (F : List (Nat × Nat × Nat)) (P : List Nat) (uE : List (Nat × Nat))
    (uE2E : List (List Nat)) (EMAP : List Nat) (orderFn : Nat → Nat → List Int → List Nat)
    (outerCells : List Nat) (AC ACells : List (List Nat)) :
    Except String (List (Nat × Nat) × Nat) :=
  match extract_cells F P uE uE2E EMAP orderFn outerCells AC ACells with
  | .error e => .error e
  | .ok pc => .ok (P.map (fun p => pc.1.getD p (0, 0)), pc.2)

/-! ## Concrete instances used as test inputs -/

/-- A cyclic-ordering collaborator answering with the identity permutation on
three occurrences (valid for the concrete fans below). -/
def orderFnId : Nat → Nat → List Int → List Nat := fun _ _ _ => [0, 1, 2]

/-- Three faces sharing the non-manifold edge (0, 1): a 3-wedge fan. -/
def F3 : List (Nat × Nat × Nat) := [(0, 1, 2), (0, 1, 3), (0, 1, 4)]

def P3 : List Nat := [0, 1, 2]

def uE3 : List (Nat × Nat) := [(0, 1)]

def uE2E3 : List (List Nat) := [[6, 7, 8]]

def EMAP3 : List Nat := [0, 0, 0, 0, 0, 0, 0, 0, 0]

/-- The peel of the 3-wedge fan. -/
def run3 : Except String (Cells × Nat × List PeelStep) :=
  extract_cells_single_component F3 P3 uE3 uE2E3 EMAP3 orderFnId

/-- A single closed face treated as one patch with no non-manifold edges. -/
def F1 : List (Nat × Nat × Nat) := [(0, 1, 2)]

def P1 : List Nat := [0]

def EMAP1 : List Nat := [0, 0, 0]

/-- The trace of a normally returning single-component run, empty otherwise. -/
def traceOf (r : Except String (Cells × Nat × List PeelStep)) : List PeelStep :=
  match r with
  | .ok res => res.2.2
  | .error _ => []

/-- Whether a run returned normally. -/
def isOkRun (r : Except String (Cells × Nat × List PeelStep)) : Bool :=
  match r with
  | .ok _ => true
  | .error _ => false

/-- A tiny peel context for exercising processEdge directly: one face forming
one patch, a single edge occurrence whose cyclic order is just itself. -/
def ctx4 : PeelCtx := ⟨1, 1, [0], [0], [[0]], [[0]], [[true]]⟩

/-! # Theorems -/

/-! ## List helpers -/

theorem set_of_length_le {α : Type} : ∀ (l : List α) (i : Nat) (a : α), l.length ≤ i → l.set i a = l
  | [], _, _, _ => rfl
  | _ :: _, 0, _, h => by simp at h
  | x :: xs, i + 1, a, h => by
    simp only [List.length_cons] at h
    simp [List.set, set_of_length_le xs i a (by omega)]

theorem getD_eq_default {α : Type} : ∀ (l : List α) (i : Nat) (d : α), l.length ≤ i → l.getD i d = d
  | [], _, _, _ => rfl
  | _ :: _, 0, _, h => by simp at h
  | _ :: xs, i + 1, d, h => by
    simp only [List.length_cons] at h
    simpa [List.getD] using getD_eq_default xs i d (by omega)

theorem getD_set_self {α : Type} : ∀ (l : List α) (i : Nat) (a d : α), i < l.length →
    (l.set i a).getD i d = a
  | [], i, _, _, h => by simp at h
  | _ :: _, 0, _, _, _ => rfl
  | x :: xs, i + 1, a, d, h => by
    simp only [List.length_cons] at h
    simpa [List.set, List.getD] using getD_set_self xs i a d (by omega)

theorem getD_set_ne {α : Type} : ∀ (l : List α) (i j : Nat) (a d : α), i ≠ j →
    (l.set i a).getD j d = l.getD j d
  | [], _, _, _, _, _ => rfl
  | _ :: _, 0, 0, _, _, h => absurd rfl h
  | _ :: _, 0, _ + 1, _, _, _ => rfl
  | _ :: _, _ + 1, 0, _, _, _ => rfl
  | x :: xs, i + 1, j + 1, a, d, h => by
    simpa [List.set, List.getD] using getD_set_ne xs i j a d (by omega)

theorem getD_replicate {α : Type} : ∀ (n i : Nat) (a : α), (List.replicate n a).getD i a = a
  | 0, _, _ => rfl
  | _ + 1, 0, _ => rfl
  | n + 1, i + 1, a => by simpa [List.replicate, List.getD] using getD_replicate n i a

/-- Looking up an entry of an updated option list: the value either was there
before or is the value just written. -/
theorem getD_set_some_inv {α : Type} (l : List (Option α)) (i : Nat) (a : α) (j : Nat) (b : α)
    (h : (l.set i (some a)).getD j none = some b) :
    l.getD j none = some b ∨ (j = i ∧ b = a) := by
  by_cases hij : i = j
  · subst hij
    by_cases hlen : i < l.length
    · rw [getD_set_self l i (some a) none hlen] at h
      right
      exact ⟨rfl, by injection h.symm⟩
    · rw [set_of_length_le l i (some a) (by omega)] at h
      exact Or.inl h
  · rw [getD_set_ne l i j (some a) none hij] at h
    exact Or.inl h

/-- Entries already set survive writing (some a) into a slot that was none. -/
theorem getD_set_some_mono {α : Type} (l : List (Option α)) (i : Nat) (a : α) (j : Nat) (b : α)
    (hi : l.getD i none = none) (h : l.getD j none = some b) :
    (l.set i (some a)).getD j none = some b := by
  by_cases hij : i = j
  · subst hij
    rw [hi] at h
    exact absurd h (by simp)
  · rw [getD_set_ne l i j (some a) none hij]
    exact h

theorem getD_map_of_lt {α β : Type} (l : List α) (f : α → β) (i : Nat) (d : β) (d0 : α)
    (h : i < l.length) : (l.map f).getD i d = f (l.getD i d0) := by
  rw [List.getD_eq_getElem l d0 h, List.getD_eq_getElem (l.map f) d (by simpa using h)]
  simp

theorem getD_mem_of_lt {α : Type} (l : List α) (i : Nat) (d : α) (h : i < l.length) :
    l.getD i d ∈ l := by
  rw [List.getD_eq_getElem l d h]
  exact List.getElem_mem h

theorem nodup_getD_ne {α : Type} [DecidableEq α] (l : List α) (hl : l.Nodup) (i j : Nat) (d : α)
    (hi : i < l.length) (hj : j < l.length) (hij : i ≠ j) : l.getD i d ≠ l.getD j d := by
  rw [List.getD_eq_getElem l d hi, List.getD_eq_getElem l d hj]
  intro h
  exact hij (List.Nodup.getElem_inj_iff hl |>.mp h)

/-- On lists of equal length, every member of the first list occurs in the zip. -/
theorem exists_zip_of_mem {α β : Type} : ∀ (l1 : List α) (l2 : List β), l1.length = l2.length →
    ∀ a ∈ l1, ∃ b, (a, b) ∈ l1.zip l2
  | [], [], _, a, ha => absurd ha (by simp)
  | [], _ :: _, h, _, _ => by simp at h
  | _ :: _, [], h, _, _ => by simp at h
  | x :: xs, y :: ys, h, a, ha => by
    rcases List.mem_cons.mp ha with rfl | ha
    · exact ⟨y, by simp⟩
    · obtain ⟨b, hb⟩ := exists_zip_of_mem xs ys (by simpa using h) a ha
      exact ⟨b, by simp [hb]⟩

/-! ## Characterizations of is_consistent -/

theorem is_consistent_ok_false_iff (F : List (Nat × Nat × Nat)) (fid s d : Nat) :
    is_consistent F fid s d = .ok false ↔ cyclicHas F fid s d := by
  unfold is_consistent cyclicHas
  split_ifs <;> simp_all <;> tauto

theorem is_consistent_ok_true_iff (F : List (Nat × Nat × Nat)) (fid s d : Nat) :
    is_consistent F fid s d = .ok true ↔ ¬ cyclicHas F fid s d ∧ cyclicHas F fid d s := by
  unfold is_consistent cyclicHas
  split_ifs <;> simp_all <;> tauto

theorem is_consistent_error_iff (F : List (Nat × Nat × Nat)) (fid s d : Nat) :
    (∃ e, is_consistent F fid s d = .error e) ↔
      ¬ (cyclicHas F fid s d ∨ cyclicHas F fid d s) := by
  unfold is_consistent cyclicHas
  split_ifs <;> simp_all <;> tauto

/-! ## Claim C8 -/

/-- Claim C8: for every face incident to a unique edge (s, d), the
orientation check raises the "Invalid face!" exception (aborting the whole
computation through Except) exactly when the face contains neither the
directed pair (s, d) nor (d, s) as consecutive vertices in any cyclic
rotation; when it contains one of them, the check returns normally. -/
theorem c8_malformed_face_check (F : List (Nat × Nat × Nat)) (fid s d : Nat) :
    ((∃ e, is_consistent F fid s d = Except.error e) ↔
      ¬ (cyclicHas F fid s d ∨ cyclicHas F fid d s))
    ∧ ((∃ r, is_consistent F fid s d = Except.ok r) ↔
      (cyclicHas F fid s d ∨ cyclicHas F fid d s)) := by
  refine ⟨is_consistent_error_iff F fid s d, ?_⟩
  constructor
  · rintro ⟨r, hr⟩
    by_contra hno
    obtain ⟨e, he⟩ := (is_consistent_error_iff F fid s d).mpr hno
    rw [hr] at he
    exact absurd he (by simp)
  · intro h
    cases hv : is_consistent F fid s d with
    | ok r => exact ⟨r, rfl⟩
    | error e => exact absurd h ((is_consistent_error_iff F fid s d).mp ⟨e, hv⟩)

/-! ## Claim C2 -/

/-- Claim C2 (amended): the signed tag of a half-edge occurrence owned by face
fid on the unique edge with canonical direction (s, d) is negative, equal to
-(fid+1), exactly when the face contains the directed pair (s, d), and is
positive, equal to +(fid+1), exactly when the face contains the reversed pair
(d, s) and not (s, d). -/
theorem c2_signed_tag_sign (F : List (Nat × Nat × Nat)) (fid s d : Nat) (t : Int)
    (h : signedTag F fid s d = Except.ok t) :
    (t = -(fid + 1 : Int) ↔ cyclicHas F fid s d)
    ∧ (t = (fid + 1 : Int) ↔ (¬ cyclicHas F fid s d ∧ cyclicHas F fid d s)) := by
  unfold signedTag at h
  cases hv : is_consistent F fid s d with
  | error e =>
    rw [hv] at h
    exact absurd h (by simp)
  | ok cons =>
    rw [hv] at h
    injection h with h
    cases cons with
    | true =>
      obtain ⟨h1, h2⟩ := (is_consistent_ok_true_iff F fid s d).mp hv
      have ht : t = (fid + 1 : Int) := by
        rw [← h]
        simp
      constructor
      · constructor
        · intro he
          rw [ht] at he
          exfalso
          omega
        · intro hc
          exact absurd hc h1
      · constructor
        · intro _
          exact ⟨h1, h2⟩
        · intro _
          exact ht
    | false =>
      have h1 := (is_consistent_ok_false_iff F fid s d).mp hv
      have ht : t = -(fid + 1 : Int) := by
        rw [← h]
        simp
      constructor
      · constructor
        · intro _
          exact h1
        · intro _
          exact ht
      · constructor
        · intro he
          rw [ht] at he
          exfalso
          omega
        · rintro ⟨hn, _⟩
          exact absurd h1 hn

/-- Claim C2 counterexample: face 0 of F3 is (0, 1, 2), whose directed edge
occurrence matches the canonical direction (0, 1) of the unique edge, yet its
signed tag is -1 = -(fid+1), not the positive +(fid+1) the claim states. -/
theorem c2_counterexample :
    signedTag F3 0 0 1 = Except.ok (-1) ∧ cyclicHas F3 0 0 1 ∧ ¬ (0 : Int) < -1 :=
  ⟨by decide, by decide, by decide⟩

/-- Witness for c2_signed_tag_sign at a concrete input: for face (0, 1, 2)
and edge direction (1, 0) the tag is +1 and the face holds the reversed
pair (0, 1). -/
theorem c2_witness :
    signedTag F3 0 1 0 = Except.ok 1 ∧ cyclicHas F3 0 0 1 :=
  ⟨by decide, ((c2_signed_tag_sign F3 0 1 0 1 (by decide)).2.mp (by norm_num)).2⟩

/-! ## Claim C7 -/

/-- Claim C7: the bounding-box test reports intersection exactly when none of
the six separating-axis conditions holds, i.e. when on every axis each max is
at least the other min; and an ordered pair of distinct components is a
candidate exactly when it passes this test, so a pair failing it contributes
no candidate (and hence no closest-facet query, which are issued only per
candidate). -/
theorem c7_bbox_separating_axes (bmax bmin : List (ℚ × ℚ × ℚ)) (numComps i j : Nat) :
    (bbox_intersects bmax bmin i j = true ↔
      ((bmin.getD j (0, 0, 0)).1 ≤ (bmax.getD i (0, 0, 0)).1 ∧
       (bmin.getD j (0, 0, 0)).2.1 ≤ (bmax.getD i (0, 0, 0)).2.1 ∧
       (bmin.getD j (0, 0, 0)).2.2 ≤ (bmax.getD i (0, 0, 0)).2.2 ∧
       (bmin.getD i (0, 0, 0)).1 ≤ (bmax.getD j (0, 0, 0)).1 ∧
       (bmin.getD i (0, 0, 0)).2.1 ≤ (bmax.getD j (0, 0, 0)).2.1 ∧
       (bmin.getD i (0, 0, 0)).2.2 ≤ (bmax.getD j (0, 0, 0)).2.2))
    ∧ (j ∈ candidate_comps bmax bmin numComps i ↔
       (j < numComps ∧ j ≠ i ∧ bbox_intersects bmax bmin i j = true)) := by
  constructor
  · unfold bbox_intersects
    simp only [Bool.not_eq_true', Bool.or_eq_false_iff, decide_eq_false_iff_not, not_lt]
    tauto
  · unfold candidate_comps
    simp only [List.mem_filter, List.mem_range, Bool.and_eq_true, decide_eq_true_eq]

/-! ## Claim C3 -/

/-- Claim C3 (amended): for a component i whose recorded ambient list has k
entries, with matching recorded ambient-cell list: the resolver aborts exactly
when k is positive and no listed ambient component has k-1 recorded ambient
relationships; when the paired scan finds a first candidate with k-1
relationships, the outer cell of i is embedded into the cell recorded at that
first position (even if several candidates qualify, no abort occurs); and when
k = 0 the outer cell is embedded into the infinite-cell sentinel. -/
theorem c3_first_parent (numRaw : Nat) (outerCells : List Nat) (AC ACells : List (List Nat))
    (emb : List (Option Nat)) (i : Nat)
    (hlen : (AC.getD i []).length = (ACells.getD (outerCells.getD i 0) []).length) :
    ((∃ e, resolveStep numRaw outerCells AC ACells emb i = Except.error e) ↔
      (0 < (AC.getD i []).length ∧
        ∀ j ∈ AC.getD i [], (AC.getD j []).length ≠ (AC.getD i []).length - 1))
    ∧ (∀ jc, ((AC.getD i []).zip (ACells.getD (outerCells.getD i 0) [])).find?
          (fun p => (AC.getD p.1 []).length == (AC.getD i []).length - 1) = some jc →
        resolveStep numRaw outerCells AC ACells emb i =
          Except.ok (emb.set (outerCells.getD i 0) (some jc.2)))
    ∧ ((AC.getD i []).length = 0 →
        resolveStep numRaw outerCells AC ACells emb i =
          Except.ok (emb.set (outerCells.getD i 0) (some numRaw))) := by
  unfold resolveStep
  rw [if_pos hlen]
  by_cases hk : 0 < (AC.getD i []).length
  · rw [if_pos hk]
    cases hf : ((AC.getD i []).zip (ACells.getD (outerCells.getD i 0) [])).find?
        (fun p => (AC.getD p.1 []).length == (AC.getD i []).length - 1) with
    | none =>
      refine ⟨⟨fun _ => ⟨hk, fun j hj => ?_⟩, fun _ => ⟨_, rfl⟩⟩,
        fun jc hjc => absurd hjc (by simp),
        fun h0 => absurd h0 (by omega)⟩
      obtain ⟨c, hc⟩ := exists_zip_of_mem (AC.getD i []) (ACells.getD (outerCells.getD i 0) [])
        hlen j hj
      have hp := List.find?_eq_none.mp hf (j, c) hc
      simpa using hp
    | some jc0 =>
      have hmem := List.mem_of_find?_eq_some hf
      have hpred := List.find?_some hf
      have hj0 : jc0.1 ∈ AC.getD i [] := (List.of_mem_zip hmem).1
      have hlenj : (AC.getD jc0.1 []).length = (AC.getD i []).length - 1 := by
        simpa using hpred
      refine ⟨⟨fun he => ?_, fun hall => absurd hlenj (hall.2 jc0.1 hj0)⟩,
        fun jc hjc => ?_, fun h0 => absurd h0 (by omega)⟩
      · obtain ⟨e, he⟩ := he
        exact absurd he (by simp)
      · injection hjc with hjc
        rw [hjc]
  · rw [if_neg hk]
    have h0 : (AC.getD i []).length = 0 := by omega
    have hnil : AC.getD i [] = [] := List.length_eq_zero.mp h0
    refine ⟨⟨fun he => ?_, fun hall => absurd hall.1 hk⟩, fun jc hjc => ?_, fun _ => rfl⟩
    · obtain ⟨e, he⟩ := he
      exact absurd he (by simp)
    · rw [hnil] at hjc
      simp at hjc

/-- The recorded ambient-relationship tables of the C3 counterexample:
component 0 has two recorded ambient components (1 and 2), each of which has
exactly one recorded ambient relationship, and component 3 has none. -/
def AC3x : List (List Nat) := [[1, 2], [3], [3], []]

/-- Claim C3 counterexample: component 0 has k = 2 recorded ambient
relationships and TWO distinct candidates (components 1 and 2) with exactly
k-1 = 1 relationships, yet the resolver does not abort: it returns normally,
embedding the outer cell of component 0 into the cell recorded at the first
qualifying position. -/
theorem c3_counterexample :
    2 ≤ (([1, 2] : List Nat).filter (fun j => (AC3x.getD j []).length == 1)).length
    ∧ resolveEmbedding 4 [0, 1, 2, 3] AC3x AC3x =
        Except.ok [some 1, some 3, some 3, some 4] :=
  ⟨by decide, by decide⟩

/-- Witness for c3_first_parent at the concrete tables of the counterexample:
the first qualifying candidate for component 0 sits at position 0 of its
recorded lists, carrying cell 1. -/
theorem c3_witness :
    (AC3x.getD 0 []).length = (AC3x.getD (([0, 1, 2, 3] : List Nat).getD 0 0) []).length
    ∧ resolveStep 4 [0, 1, 2, 3] AC3x AC3x (List.replicate 4 none) 0 =
        Except.ok ((List.replicate 4 none).set 0 (some 1)) :=
  ⟨by decide,
    (c3_first_parent 4 [0, 1, 2, 3] AC3x AC3x (List.replicate 4 none) 0 (by decide)).2.1
      (1, 1) (by decide)⟩

/-! ## Claim C4 -/

/-- Claim C4: whenever the computed neighbor (patch, side) of a peel step is
already labeled with a cell id different from the propagating one, the step
fails with the cell-assignment-inconsistency error; through Except this error
aborts the entire peel and single-component extraction, so no partial result
is returned. -/
theorem c4_mismatch_aborts (ctx : PeelCtx) (cellIdx side : Nat) (st : PeelState) (ei c : Nat)
    (hc : getCell st.cells (peelStep ctx side ei).nextPatch (peelStep ctx side ei).nextSide =
      some c)
    (hne : c ≠ cellIdx) :
    processEdge ctx cellIdx side st ei =
      Except.error "Encountered cell assignment inconsistency" := by
  unfold processEdge
  rw [hc]
  simp [hne]

/-- Witness for c4_mismatch_aborts: in ctx4, the neighbor computed from edge
occurrence 0 for (patch 0, side 0) is (patch 0, side 1), which is pre-labeled
with cell 5 while cell 0 propagates, so the step aborts. -/
theorem c4_witness :
    getCell [none, some 5] (peelStep ctx4 0 0).nextPatch (peelStep ctx4 0 0).nextSide = some 5
    ∧ (5 : Nat) ≠ 0
    ∧ processEdge ctx4 0 0 ⟨[none, some 5], [], []⟩ 0 =
        Except.error "Encountered cell assignment inconsistency" :=
  ⟨by decide, by decide,
    c4_mismatch_aborts ctx4 0 0 ⟨[none, some 5], [], []⟩ 0 5 (by decide) (by decide)⟩

/-! ## Claim C1 -/

theorem sideStep_eq (c n : Bool) (s : Nat) : sideStep c n s = if c = n then 1 - s else s := by
  cases c <;> cases n <;> simp [sideStep]

theorem peelStep_nextSide (ctx : PeelCtx) (side ei : Nat) :
    (peelStep ctx side ei).nextSide =
      sideStep (peelStep ctx side ei).cons (peelStep ctx side ei).nextCons side := rfl

theorem processEdge_trace (ctx : PeelCtx) (cellIdx side : Nat) (st st2 : PeelState) (ei : Nat)
    (h : processEdge ctx cellIdx side st ei = .ok st2)
    (hst : ∀ x ∈ st.trace, x.nextSide = if x.cons = x.nextCons then 1 - x.side else x.side) :
    ∀ x ∈ st2.trace, x.nextSide = if x.cons = x.nextCons then 1 - x.side else x.side := by
  have hnew :
      ∀ x ∈ [(⟨side, (peelStep ctx side ei).cons, (peelStep ctx side ei).nextCons,
            (peelStep ctx side ei).nextSide⟩ : PeelStep)],
        x.nextSide = if x.cons = x.nextCons then 1 - x.side else x.side := by
    intro x hx
    rw [List.mem_singleton] at hx
    subst hx
    rw [peelStep_nextSide, sideStep_eq]
  unfold processEdge at h
  split at h
  · injection h with h
    subst h
    intro x hx
    rcases List.mem_append.mp hx with hx | hx
    · exact hst x hx
    · exact hnew x hx
  · split at h
    · injection h with h
      subst h
      intro x hx
      rcases List.mem_append.mp hx with hx | hx
      · exact hst x hx
      · exact hnew x hx
    · exact absurd h (by simp)

theorem processEdges_trace (ctx : PeelCtx) (cellIdx side : Nat) :
    ∀ (es : List Nat) (st st2 : PeelState),
      processEdges ctx cellIdx side st es = .ok st2 →
      (∀ x ∈ st.trace, x.nextSide = if x.cons = x.nextCons then 1 - x.side else x.side) →
      ∀ x ∈ st2.trace, x.nextSide = if x.cons = x.nextCons then 1 - x.side else x.side
  | [], st, st2, h, hst => by
    unfold processEdges at h
    injection h with h
    subst h
    exact hst
  | ei :: rest, st, st2, h, hst => by
    unfold processEdges at h
    split at h
    · exact absurd h (by simp)
    · exact processEdges_trace ctx cellIdx side rest _ st2 h
        (processEdge_trace ctx cellIdx side st _ ei (by assumption) hst)

theorem peelLoop_trace (ctx : PeelCtx) (cellIdx : Nat) :
    ∀ (fuel : Nat) (st st2 : PeelState),
      peelLoop ctx cellIdx fuel st = .ok st2 →
      (∀ x ∈ st.trace, x.nextSide = if x.cons = x.nextCons then 1 - x.side else x.side) →
      ∀ x ∈ st2.trace, x.nextSide = if x.cons = x.nextCons then 1 - x.side else x.side
  | 0, st, st2, h, _ => absurd h (by simp [peelLoop])
  | fuel + 1, st, st2, h, hst => by
    unfold peelLoop at h
    split at h
    · injection h with h
      subst h
      exact hst
    · split at h
      · exact absurd h (by simp)
      · rename_i xq p s rest hq xe st3 heq
        exact peelLoop_trace ctx cellIdx fuel st3 st2 h
          (processEdges_trace ctx cellIdx s (ctx.patchEdgeAdj.getD p [])
            ⟨st.cells, rest, st.trace⟩ st3 heq hst)

theorem peel_cell_bd_trace (ctx : PeelCtx) (seedPatch seedSide cellIdx : Nat) (cells : Cells)
    (tr : List PeelStep) (cells2 : Cells) (tr2 : List PeelStep)
    (h : peel_cell_bd ctx seedPatch seedSide cellIdx cells tr = .ok (cells2, tr2))
    (hst : ∀ x ∈ tr, x.nextSide = if x.cons = x.nextCons then 1 - x.side else x.side) :
    ∀ x ∈ tr2, x.nextSide = if x.cons = x.nextCons then 1 - x.side else x.side := by
  unfold peel_cell_bd at h
  split at h
  · exact absurd h (by simp)
  · injection h with h
    have h2 : tr2 = _ := congrArg Prod.snd h.symm
    rw [h2]
    exact peelLoop_trace ctx cellIdx _ _ _ (by assumption) hst

theorem seedOne_trace (ctx : PeelCtx) (p s : Nat) (cells : Cells) (count : Nat)
    (tr : List PeelStep) (r : Cells × Nat × List PeelStep)
    (h : seedOne ctx p s cells count tr = .ok r)
    (hst : ∀ x ∈ tr, x.nextSide = if x.cons = x.nextCons then 1 - x.side else x.side) :
    ∀ x ∈ r.2.2, x.nextSide = if x.cons = x.nextCons then 1 - x.side else x.side := by
  unfold seedOne at h
  split at h
  · split at h
    · exact absurd h (by simp)
    · injection h with h
      subst h
      exact peel_cell_bd_trace ctx p s count cells tr _ _ (by assumption) hst
  · injection h with h
    subst h
    exact hst

theorem seedPatches_trace (ctx : PeelCtx) :
    ∀ (ps : List Nat) (cells : Cells) (count : Nat) (tr : List PeelStep)
      (r : Cells × Nat × List PeelStep),
      seedPatches ctx ps cells count tr = .ok r →
      (∀ x ∈ tr, x.nextSide = if x.cons = x.nextCons then 1 - x.side else x.side) →
      ∀ x ∈ r.2.2, x.nextSide = if x.cons = x.nextCons then 1 - x.side else x.side
  | [], cells, count, tr, r, h, hst => by
    unfold seedPatches at h
    injection h with h
    subst h
    exact hst
  | p :: rest, cells, count, tr, r, h, hst => by
    unfold seedPatches at h
    split at h
    · exact absurd h (by simp)
    · split at h
      · exact absurd h (by simp)
      · exact seedPatches_trace ctx rest _ _ _ r h
          (seedOne_trace ctx p 1 _ _ _ _ (by assumption)
            (seedOne_trace ctx p 0 cells count tr _ (by assumption) hst))

/-- Claim C1 (amended): in every reachable peel step of a normally returning
single-component extraction, the side labeled on the neighbor patch is the
OPPOSITE side whenever the two faces have EQUAL orientation-consistency flags,
and the SAME side whenever the flags differ. -/
theorem c1_step_side_rule (F : List (Nat × Nat × Nat)) (P : List Nat) (uE : List (Nat × Nat))
    (uE2E : List (List Nat)) (EMAP : List Nat) (orderFn : Nat → Nat → List Int → List Nat)
    (cells : Cells) (count : Nat) (tr : List PeelStep)
    (h : extract_cells_single_component F P uE uE2E EMAP orderFn = .ok (cells, count, tr)) :
    ∀ x ∈ tr, x.nextSide = if x.cons = x.nextCons then 1 - x.side else x.side := by
  unfold extract_cells_single_component at h
  split at h
  · exact absurd h (by simp)
  · have := seedPatches_trace _ _ _ _ _ _ h (by simp)
    exact this

/-- Claim C1 counterexample: the 3-wedge fan returns normally and its trace
contains a reachable peel step whose two orientation-consistency flags are
EQUAL while the side labeled on the neighbor patch DIFFERS from the current
side, contradicting the claimed rule. -/
theorem c1_counterexample :
    isOkRun run3 = true
    ∧ ∃ x ∈ traceOf run3, x.cons = x.nextCons ∧ ¬ x.nextSide = x.side :=
  ⟨by decide, by decide⟩

/-- Witness for c1_step_side_rule: the full trace of the 3-wedge fan run,
with every entry checked against the amended rule. -/
theorem c1_witness :
    extract_cells_single_component F3 P3 uE3 uE2E3 EMAP3 orderFnId =
      Except.ok ([some 0, some 1, some 1, some 2, some 2, some 0], 3,
        [⟨0, false, false, 1⟩, ⟨1, false, false, 0⟩, ⟨1, false, false, 0⟩,
         ⟨0, false, false, 1⟩, ⟨1, false, false, 0⟩, ⟨0, false, false, 1⟩])
    ∧ ∀ x ∈ ([⟨0, false, false, 1⟩, ⟨1, false, false, 0⟩, ⟨1, false, false, 0⟩,
         ⟨0, false, false, 1⟩, ⟨1, false, false, 0⟩, ⟨0, false, false, 1⟩] : List PeelStep),
        x.nextSide = if x.cons = x.nextCons then 1 - x.side else x.side :=
  ⟨by decide,
    c1_step_side_rule F3 P3 uE3 uE2E3 EMAP3 orderFnId
      [some 0, some 1, some 1, some 2, some 2, some 0] 3
      [⟨0, false, false, 1⟩, ⟨1, false, false, 0⟩, ⟨1, false, false, 0⟩,
       ⟨0, false, false, 1⟩, ⟨1, false, false, 0⟩, ⟨0, false, false, 1⟩] (by decide)⟩

/-! ## Claim C6 -/

theorem processEdge_cells (ctx : PeelCtx) (cellIdx side : Nat) (st st2 : PeelState) (ei : Nat)
    (h : processEdge ctx cellIdx side st ei = .ok st2) :
    st2.cells.length = st.cells.length
    ∧ (∀ i c, st.cells.getD i none = some c → st2.cells.getD i none = some c)
    ∧ (∀ i c, st2.cells.getD i none = some c → st.cells.getD i none = some c ∨ c = cellIdx) := by
  unfold processEdge at h
  split at h
  · rename_i heq
    injection h with h
    subst h
    refine ⟨by simp [setCell], fun i c hc => ?_, fun i c hc => ?_⟩
    · exact getD_set_some_mono _ _ _ _ _ heq hc
    · rcases getD_set_some_inv _ _ _ _ _ hc with hc | ⟨_, rfl⟩
      · exact Or.inl hc
      · exact Or.inr rfl
  · split at h
    · injection h with h
      subst h
      exact ⟨rfl, fun i c hc => hc, fun i c hc => Or.inl hc⟩
    · exact absurd h (by simp)

theorem processEdges_cells (ctx : PeelCtx) (cellIdx side : Nat) :
    ∀ (es : List Nat) (st st2 : PeelState),
      processEdges ctx cellIdx side st es = .ok st2 →
      st2.cells.length = st.cells.length
      ∧ (∀ i c, st.cells.getD i none = some c → st2.cells.getD i none = some c)
      ∧ (∀ i c, st2.cells.getD i none = some c → st.cells.getD i none = some c ∨ c = cellIdx)
  | [], st, st2, h => by
    unfold processEdges at h
    injection h with h
    subst h
    exact ⟨rfl, fun i c hc => hc, fun i c hc => Or.inl hc⟩
  | ei :: rest, st, st2, h => by
    unfold processEdges at h
    split at h
    · exact absurd h (by simp)
    · rename_i st3 heq
      obtain ⟨l1, m1, r1⟩ := processEdge_cells ctx cellIdx side st st3 ei heq
      obtain ⟨l2, m2, r2⟩ := processEdges_cells ctx cellIdx side rest st3 st2 h
      exact ⟨l2.trans l1, fun i c hc => m2 i c (m1 i c hc),
        fun i c hc => (r2 i c hc).elim (fun hh => r1 i c hh) Or.inr⟩

theorem peelLoop_cells (ctx : PeelCtx) (cellIdx : Nat) :
    ∀ (fuel : Nat) (st st2 : PeelState),
      peelLoop ctx cellIdx fuel st = .ok st2 →
      st2.cells.length = st.cells.length
      ∧ (∀ i c, st.cells.getD i none = some c → st2.cells.getD i none = some c)
      ∧ (∀ i c, st2.cells.getD i none = some c → st.cells.getD i none = some c ∨ c = cellIdx)
  | 0, st, st2, h => absurd h (by simp [peelLoop])
  | fuel + 1, st, st2, h => by
    unfold peelLoop at h
    split at h
    · injection h with h
      subst h
      exact ⟨rfl, fun i c hc => hc, fun i c hc => Or.inl hc⟩
    · split at h
      · exact absurd h (by simp)
      · rename_i xq p s rest hq xe st3 heq
        obtain ⟨l1, m1, r1⟩ := processEdges_cells ctx cellIdx s (ctx.patchEdgeAdj.getD p [])
          ⟨st.cells, rest, st.trace⟩ st3 heq
        obtain ⟨l2, m2, r2⟩ := peelLoop_cells ctx cellIdx fuel st3 st2 h
        exact ⟨l2.trans l1, fun i c hc => m2 i c (m1 i c hc),
          fun i c hc => (r2 i c hc).elim (fun hh => r1 i c hh) Or.inr⟩

theorem peel_cell_bd_cells (ctx : PeelCtx) (seedPatch seedSide cellIdx : Nat) (cells : Cells)
    (tr : List PeelStep) (cells2 : Cells) (tr2 : List PeelStep)
    (h : peel_cell_bd ctx seedPatch seedSide cellIdx cells tr = .ok (cells2, tr2))
    (hseed : getCell cells seedPatch seedSide = none) :
    cells2.length = cells.length
    ∧ (∀ i c, cells.getD i none = some c → cells2.getD i none = some c)
    ∧ (∀ i c, cells2.getD i none = some c → cells.getD i none = some c ∨ c = cellIdx)
    ∧ (2 * seedPatch + seedSide < cells.length →
        getCell cells2 seedPatch seedSide = some cellIdx) := by
  unfold peel_cell_bd at h
  split at h
  · exact absurd h (by simp)
  · rename_i st heq
    injection h with h
    injection h with h1 h2
    subst h1
    obtain ⟨l1, m1, r1⟩ := peelLoop_cells ctx cellIdx _ _ _ heq
    refine ⟨by rw [l1]; simp [setCell], fun i c hc => ?_, fun i c hc => ?_, fun hlt => ?_⟩
    · exact m1 _ _ (getD_set_some_mono _ _ _ _ _ hseed hc)
    · rcases r1 i c hc with hh | hh
      · rcases getD_set_some_inv _ _ _ _ _ hh with hh2 | ⟨_, rfl⟩
        · exact Or.inl hh2
        · exact Or.inr rfl
      · exact Or.inr hh
    · exact m1 _ _ (getD_set_self cells _ (some cellIdx) none hlt)

theorem seedOne_cells (ctx : PeelCtx) (p s : Nat) (cells : Cells) (count : Nat)
    (tr : List PeelStep) (r : Cells × Nat × List PeelStep)
    (h : seedOne ctx p s cells count tr = .ok r)
    (hlt : 2 * p + s < cells.length) :
    r.1.length = cells.length
    ∧ count ≤ r.2.1
    ∧ (∀ i c, cells.getD i none = some c → r.1.getD i none = some c)
    ∧ (∀ i c, r.1.getD i none = some c →
        cells.getD i none = some c ∨ (c = count ∧ r.2.1 = count + 1))
    ∧ ((r.2.1 = count ∧ ∃ c, getCell r.1 p s = some c)
       ∨ (r.2.1 = count + 1 ∧ getCell r.1 p s = some count)) := by
  unfold seedOne at h
  split at h
  · rename_i hseed
    split at h
    · exact absurd h (by simp)
    · rename_i ct heq
      injection h with h
      subst h
      obtain ⟨l1, m1, r1, s1⟩ := peel_cell_bd_cells ctx p s count cells tr ct.1 ct.2
        (by rw [← heq]) hseed
      exact ⟨l1, Nat.le_succ count, m1,
        fun i c hc => (r1 i c hc).elim Or.inl (fun hh => Or.inr ⟨hh, rfl⟩),
        Or.inr ⟨rfl, s1 hlt⟩⟩
  · rename_i hseed
    injection h with h
    subst h
    have hls : ∃ c, getCell cells p s = some c := by
      cases hg : getCell cells p s with
      | none => exact absurd hg hseed
      | some c => exact ⟨c, rfl⟩
    exact ⟨rfl, Nat.le.refl, fun i c hc => hc, fun i c hc => Or.inl hc, Or.inl ⟨rfl, hls⟩⟩

theorem seedPatches_cells (ctx : PeelCtx) :
    ∀ (ps : List Nat) (cells : Cells) (count : Nat) (tr : List PeelStep)
      (r : Cells × Nat × List PeelStep),
      seedPatches ctx ps cells count tr = .ok r →
      (∀ p ∈ ps, 2 * p + 1 < cells.length) →
      r.1.length = cells.length
      ∧ count ≤ r.2.1
      ∧ (∀ i c, cells.getD i none = some c → r.1.getD i none = some c)
      ∧ (∀ i c, r.1.getD i none = some c →
          cells.getD i none = some c ∨ (count ≤ c ∧ c < r.2.1))
      ∧ (∀ c, count ≤ c → c < r.2.1 → ∃ i, r.1.getD i none = some c)
      ∧ (∀ p ∈ ps, ∀ s, s < 2 → ∃ c, getCell r.1 p s = some c)
  | [], cells, count, tr, r, h, _ => by
    unfold seedPatches at h
    injection h with h
    subst h
    exact ⟨rfl, Nat.le.refl, fun i c hc => hc, fun i c hc => Or.inl hc,
      fun c hc1 hc2 => absurd (Nat.lt_of_le_of_lt hc1 hc2) (Nat.lt_irrefl count),
      fun p hp => absurd hp (by simp)⟩
  | p :: rest, cells, count, tr, r, h, hlt => by
    unfold seedPatches at h
    split at h
    · exact absurd h (by simp)
    · rename_i r1 heq1
      split at h
      · exact absurd h (by simp)
      · rename_i r2 heq2
        have hp1 : 2 * p + 1 < cells.length := hlt p (by simp)
        obtain ⟨l1, n1, m1, v1, e1⟩ := seedOne_cells ctx p 0 cells count tr r1 heq1 (by omega)
        obtain ⟨l2, n2, m2, v2, e2⟩ := seedOne_cells ctx p 1 r1.1 r1.2.1 r1.2.2 r2 heq2
          (by omega)
        obtain ⟨l3, n3, m3, v3, cov3, b3⟩ := seedPatches_cells ctx rest r2.1 r2.2.1 r2.2.2 r h
          (by intro q hq; rw [l2, l1]; exact hlt q (by simp [hq]))
        refine ⟨by rw [l3, l2, l1], by omega, fun i c hc => m3 i c (m2 i c (m1 i c hc)),
          fun i c hc => ?_, fun c hc1 hc2 => ?_, fun q hq t ht => ?_⟩
        · rcases v3 i c hc with hc | hc
          · rcases v2 i c hc with hc | hc
            · rcases v1 i c hc with hc | hc
              · exact Or.inl hc
              · exact Or.inr ⟨by omega, by omega⟩
            · exact Or.inr ⟨by omega, by omega⟩
          · exact Or.inr ⟨by omega, by omega⟩
        · by_cases hcr : r2.2.1 ≤ c
          · exact cov3 c hcr hc2
          · by_cases hcr1 : r1.2.1 ≤ c
            · rcases e2 with ⟨he, _⟩ | ⟨he, hg⟩
              · exact absurd hcr1 (by omega)
              · have hcv : c = r1.2.1 := by omega
                refine ⟨2 * p + 1, m3 _ _ ?_⟩
                rw [hcv]
                exact hg
            · rcases e1 with ⟨he, _⟩ | ⟨he, hg⟩
              · exact absurd hc1 (by omega)
              · have hcv : c = count := by omega
                refine ⟨2 * p + 0, m3 _ _ (m2 _ _ ?_)⟩
                rw [hcv]
                exact hg
        · rcases List.mem_cons.mp hq with rfl | hq
          · have ht2 : t = 0 ∨ t = 1 := by omega
            rcases ht2 with rfl | rfl
            · rcases e1 with ⟨_, c0, hg⟩ | ⟨_, hg⟩
              · exact ⟨c0, m3 _ _ (m2 _ _ hg)⟩
              · exact ⟨count, m3 _ _ (m2 _ _ hg)⟩
            · rcases e2 with ⟨_, c0, hg⟩ | ⟨_, hg⟩
              · exact ⟨c0, m3 _ _ hg⟩
              · exact ⟨r1.2.1, m3 _ _ hg⟩
          · exact b3 q hq t ht

/-- Claim C6: when the single-component extraction returns normally, every
(patch, side) pair of the 2 times num_patches table carries a raw cell id in
[0, count), and every id in that range is carried by at least one
(patch, side) pair. -/
theorem c6_complete_labeling (F : List (Nat × Nat × Nat)) (P : List Nat) (uE : List (Nat × Nat))
    (uE2E : List (List Nat)) (EMAP : List Nat) (orderFn : Nat → Nat → List Int → List Nat)
    (cells : Cells) (count : Nat) (tr : List PeelStep)
    (h : extract_cells_single_component F P uE uE2E EMAP orderFn = .ok (cells, count, tr)) :
    (∀ p, p < numPatchesOf P → ∀ s, s < 2 → ∃ c, getCell cells p s = some c ∧ c < count)
    ∧ (∀ c, c < count → ∃ p s, p < numPatchesOf P ∧ s < 2 ∧ getCell cells p s = some c) := by
  unfold extract_cells_single_component at h
  split at h
  · exact absurd h (by simp)
  · obtain ⟨l3, n3, m3, v3, cov3, b3⟩ := seedPatches_cells _ _ _ _ _ (cells, count, tr) h
      (by
        intro q hq
        rw [List.length_replicate]
        rw [List.mem_range] at hq
        omega)
    dsimp only at l3 n3 m3 v3 cov3 b3
    have hlen : cells.length = 2 * numPatchesOf P := by
      rw [l3, List.length_replicate]
    constructor
    · intro p hp s hs
      obtain ⟨c, hc⟩ := b3 p (List.mem_range.mpr hp) s hs
      refine ⟨c, hc, ?_⟩
      rcases v3 _ _ hc with hv | hv
      · rw [getD_replicate] at hv
        exact absurd hv (by simp)
      · omega
    · intro c hc
      obtain ⟨i, hi⟩ := cov3 c (by omega) hc
      have hilen : i < cells.length := by
        by_contra hge
        rw [getD_eq_default cells i none (by omega)] at hi
        exact absurd hi (by simp)
      refine ⟨i / 2, i % 2, by omega, by omega, ?_⟩
      have him : 2 * (i / 2) + i % 2 = i := Nat.div_add_mod i 2
      unfold getCell
      rw [him]
      exact hi

/-- Witness for c6_complete_labeling: the single-face instance returns
normally with two raw cells, both sides of its only patch labeled. -/
theorem c6_witness :
    extract_cells_single_component F1 P1 [] [] EMAP1 orderFnId =
      Except.ok ([some 0, some 1], 2, [])
    ∧ ((∀ p, p < numPatchesOf P1 → ∀ s, s < 2 →
          ∃ c, getCell [some 0, some 1] p s = some c ∧ c < 2)
       ∧ (∀ c, c < 2 → ∃ p s, p < numPatchesOf P1 ∧ s < 2 ∧
          getCell [some 0, some 1] p s = some c)) :=
  ⟨by decide,
    c6_complete_labeling F1 P1 [] [] EMAP1 orderFnId [some 0, some 1] 2 [] (by decide)⟩

/-! ## Claim C5 -/

theorem compactStep_eq_found (st : List (Option Nat) × Nat) (v c : Nat)
    (hg : st.1.getD v none = some c) : compactStep st v = (st, c) := by
  unfold compactStep
  rw [hg]

theorem compactStep_eq_new (st : List (Option Nat) × Nat) (v : Nat)
    (hg : st.1.getD v none = none) :
    compactStep st v = ((st.1.set v (some st.2), st.2 + 1), st.2) := by
  unfold compactStep
  rw [hg]

theorem compactStep_spec (numRaw : Nat) (st : List (Option Nat) × Nat) (v : Nat)
    (h : compactInv numRaw st) :
    compactInv numRaw (compactStep st v).1
    ∧ st.2 ≤ (compactStep st v).1.2
    ∧ (compactStep st v).2 < (compactStep st v).1.2
    ∧ ((compactStep st v).1.2 = st.2 ∨
        ((compactStep st v).1.2 = st.2 + 1 ∧ (compactStep st v).2 = st.2))
    ∧ ((compactStep st v).2 = 0 ↔ v = numRaw) := by
  obtain ⟨hval, hsent, hone, hzero⟩ := h
  cases hg : st.1.getD v none with
  | some c =>
    rw [compactStep_eq_found st v c hg]
    refine ⟨⟨hval, hsent, hone, hzero⟩, Nat.le.refl, hval v c hg, Or.inl rfl,
      fun hc0 => ?_, fun hv => ?_⟩
    · apply hzero v
      have hc : c = 0 := hc0
      rw [hg, hc]
    · have hs : some c = some 0 := by
        rw [← hg, hv]
        exact hsent
      exact Option.some.inj hs
  | none =>
    have hvne : v ≠ numRaw := by
      intro hv
      rw [hv, hsent] at hg
      exact absurd hg (by simp)
    rw [compactStep_eq_new st v hg]
    refine ⟨⟨fun w c hc => ?_, ?_, Nat.le_succ_of_le hone, fun w hw => ?_⟩,
      Nat.le_succ _, Nat.lt_succ_self _, Or.inr ⟨rfl, rfl⟩,
      fun hc0 => absurd hc0 (by omega), fun hv => absurd hv hvne⟩
    · rcases getD_set_some_inv _ _ _ _ _ hc with hh | ⟨_, rfl⟩
      · exact Nat.lt_succ_of_lt (hval w c hh)
      · exact Nat.lt_succ_self _
    · rw [getD_set_ne st.1 v numRaw (some st.2) none hvne]
      exact hsent
    · rcases getD_set_some_inv _ _ _ _ _ hw with hh | ⟨_, hh⟩
      · exact hzero w hh
      · exact absurd hh.symm (by omega)

theorem compactRows_spec (numRaw : Nat) :
    ∀ (rows : List (Nat × Nat)) (st : List (Option Nat) × Nat),
      compactInv numRaw st →
      st.2 ≤ (compactRows st rows).2
      ∧ (∀ r ∈ (compactRows st rows).1,
          r.1 < (compactRows st rows).2 ∧ r.2 < (compactRows st rows).2)
      ∧ (∀ c, st.2 ≤ c → c < (compactRows st rows).2 →
          ∃ r ∈ (compactRows st rows).1, r.1 = c ∨ r.2 = c)
      ∧ (∀ r ∈ rows, (r.1 = numRaw ∨ r.2 = numRaw) →
          ∃ r2 ∈ (compactRows st rows).1, r2.1 = 0 ∨ r2.2 = 0)
      ∧ (compactRows st rows).1.length = rows.length
      ∧ (∀ idx, idx < rows.length →
          (((compactRows st rows).1.getD idx (0, 0)).1 = 0 ↔
            (rows.getD idx (0, 0)).1 = numRaw)
          ∧ (((compactRows st rows).1.getD idx (0, 0)).2 = 0 ↔
            (rows.getD idx (0, 0)).2 = numRaw))
  | [], st, h => by
    unfold compactRows
    exact ⟨Nat.le.refl, fun r hr => absurd hr (by simp),
      fun c hc1 hc2 => absurd (Nat.lt_of_le_of_lt hc1 hc2) (Nat.lt_irrefl st.2),
      fun r hr _ => absurd hr (by simp), rfl,
      fun idx hidx => absurd hidx (by simp)⟩
  | r :: rest, st, h => by
    obtain ⟨h1inv, h1le, h1lt, h1cases, h1sent⟩ := compactStep_spec numRaw st r.1 h
    obtain ⟨h2inv, h2le, h2lt, h2cases, h2sent⟩ :=
      compactStep_spec numRaw (compactStep st r.1).1 r.2 h1inv
    obtain ⟨ihle, ihbound, ihcov, ihsent, ihlen, ihpos⟩ :=
      compactRows_spec numRaw rest (compactStep (compactStep st r.1).1 r.2).1 h2inv
    unfold compactRows
    refine ⟨by omega, fun r2 hr2 => ?_, fun c hc1 hc2 => ?_, fun r0 hr0 hs0 => ?_,
      by simpa using ihlen, fun idx hidx => ?_⟩
    · rcases List.mem_cons.mp hr2 with rfl | hr2
      · exact ⟨by omega, by omega⟩
      · exact ihbound r2 hr2
    · by_cases hcr : (compactStep (compactStep st r.1).1 r.2).1.2 ≤ c
      · obtain ⟨r2, hr2, hor⟩ := ihcov c hcr hc2
        exact ⟨r2, List.mem_cons_of_mem _ hr2, hor⟩
      · by_cases hcr1 : (compactStep st r.1).1.2 ≤ c
        · rcases h2cases with he | ⟨he, hv⟩
          · exact absurd hcr1 (by omega)
          · refine ⟨((compactStep st r.1).2, (compactStep (compactStep st r.1).1 r.2).2),
              List.mem_cons_self _ _, Or.inr ?_⟩
            omega
        · rcases h1cases with he | ⟨he, hv⟩
          · exact absurd hc1 (by omega)
          · refine ⟨((compactStep st r.1).2, (compactStep (compactStep st r.1).1 r.2).2),
              List.mem_cons_self _ _, Or.inl ?_⟩
            omega
    · rcases List.mem_cons.mp hr0 with rfl | hr0
      · rcases hs0 with hs0 | hs0
        · exact ⟨((compactStep st r0.1).2, (compactStep (compactStep st r0.1).1 r0.2).2),
            List.mem_cons_self _ _, Or.inl (h1sent.mpr hs0)⟩
        · exact ⟨((compactStep st r0.1).2, (compactStep (compactStep st r0.1).1 r0.2).2),
            List.mem_cons_self _ _, Or.inr (h2sent.mpr hs0)⟩
      · obtain ⟨r2, hr2, hor⟩ := ihsent r0 hr0 hs0
        exact ⟨r2, List.mem_cons_of_mem _ hr2, hor⟩
    · cases idx with
      | zero => exact ⟨h1sent, h2sent⟩
      | succ idx => exact ihpos idx (by simpa using hidx)

theorem compactInit_inv (numRaw : Nat) : compactInv numRaw (compactInit numRaw) := by
  refine ⟨fun v c hc => ?_, ?_, Nat.le.refl, fun v hv => ?_⟩
  · rcases getD_set_some_inv _ _ _ _ _ hc with hh | ⟨_, rfl⟩
    · rw [getD_replicate] at hh
      exact absurd hh (by simp)
    · exact Nat.lt_succ_self 0
  · exact getD_set_self _ _ _ _ (by simp)
  · rcases getD_set_some_inv _ _ _ _ _ hv with hh | ⟨hh, _⟩
    · rw [getD_replicate] at hh
      exact absurd hh (by simp)
    · exact hh

theorem resolveStep_length (numRaw : Nat) (outerCells : List Nat) (AC ACells : List (List Nat))
    (emb emb2 : List (Option Nat)) (i : Nat)
    (h : resolveStep numRaw outerCells AC ACells emb i = .ok emb2) :
    emb2.length = emb.length := by
  unfold resolveStep at h
  split at h
  · split at h
    · split at h
      · injection h with h
        rw [← h]
        simp
      · exact absurd h (by simp)
    · injection h with h
      rw [← h]
      simp
  · exact absurd h (by simp)

theorem resolveStep_k0 (numRaw : Nat) (outerCells : List Nat) (AC ACells : List (List Nat))
    (emb emb2 : List (Option Nat)) (i : Nat)
    (hk : (AC.getD i []).length = 0)
    (h : resolveStep numRaw outerCells AC ACells emb i = .ok emb2) :
    emb2 = emb.set (outerCells.getD i 0) (some numRaw) := by
  unfold resolveStep at h
  split at h
  · rw [if_neg (by omega)] at h
    injection h with h
    exact h.symm
  · exact absurd h (by simp)

theorem resolveStep_candidate (numRaw : Nat) (outerCells : List Nat) (AC ACells : List (List Nat))
    (emb emb2 : List (Option Nat)) (i : Nat)
    (hk : 0 < (AC.getD i []).length)
    (h : resolveStep numRaw outerCells AC ACells emb i = .ok emb2) :
    ∃ j ∈ AC.getD i [], (AC.getD j []).length = (AC.getD i []).length - 1 := by
  unfold resolveStep at h
  split at h
  · split at h
    · rename_i jc hf
      have hmem := List.mem_of_find?_eq_some hf
      have hpred := List.find?_some hf
      refine ⟨jc.1, (List.of_mem_zip hmem).1, by simpa using hpred⟩
    · exact absurd h (by simp)
  · exact absurd h (by simp)

theorem resolveStep_preserve (numRaw : Nat) (outerCells : List Nat) (AC ACells : List (List Nat))
    (emb emb2 : List (Option Nat)) (i o : Nat)
    (hne : outerCells.getD i 0 ≠ o)
    (h : resolveStep numRaw outerCells AC ACells emb i = .ok emb2) :
    emb2.getD o none = emb.getD o none := by
  unfold resolveStep at h
  split at h
  · split at h
    · split at h
      · injection h with h
        rw [← h]
        exact getD_set_ne _ _ _ _ _ hne
      · exact absurd h (by simp)
    · injection h with h
      rw [← h]
      exact getD_set_ne _ _ _ _ _ hne
  · exact absurd h (by simp)

theorem resolveFold_candidates (numRaw : Nat) (outerCells : List Nat) (AC ACells : List (List Nat)) :
    ∀ (is2 : List Nat) (emb emb2 : List (Option Nat)),
      resolveFold numRaw outerCells AC ACells emb is2 = .ok emb2 →
      ∀ i ∈ is2, 0 < (AC.getD i []).length →
        ∃ j ∈ AC.getD i [], (AC.getD j []).length = (AC.getD i []).length - 1
  | [], emb, emb2, h, i, hi, _ => absurd hi (by simp)
  | i0 :: rest, emb, emb2, h, i, hi, hk => by
    unfold resolveFold at h
    split at h
    · exact absurd h (by simp)
    · rename_i emb3 heq
      rcases List.mem_cons.mp hi with rfl | hi
      · exact resolveStep_candidate numRaw outerCells AC ACells emb emb3 i hk heq
      · exact resolveFold_candidates numRaw outerCells AC ACells rest emb3 emb2 h i hi hk

theorem resolveFold_preserve (numRaw : Nat) (outerCells : List Nat) (AC ACells : List (List Nat)) :
    ∀ (is2 : List Nat) (emb emb2 : List (Option Nat)) (o : Nat),
      (∀ i ∈ is2, outerCells.getD i 0 ≠ o) →
      resolveFold numRaw outerCells AC ACells emb is2 = .ok emb2 →
      emb2.getD o none = emb.getD o none
  | [], emb, emb2, o, _, h => by
    unfold resolveFold at h
    injection h with h
    rw [h]
  | i0 :: rest, emb, emb2, o, hne, h => by
    unfold resolveFold at h
    split at h
    · exact absurd h (by simp)
    · rename_i emb3 heq
      rw [resolveFold_preserve numRaw outerCells AC ACells rest emb3 emb2 o
        (fun i hi => hne i (List.mem_cons_of_mem _ hi)) h]
      exact resolveStep_preserve numRaw outerCells AC ACells emb emb3 i0 o
        (hne i0 (List.mem_cons_self _ _)) heq

theorem resolveFold_k0 (numRaw : Nat) (outerCells : List Nat) (AC ACells : List (List Nat)) :
    ∀ (is2 : List Nat) (emb emb2 : List (Option Nat)) (i : Nat),
      is2.Nodup → i ∈ is2 →
      (AC.getD i []).length = 0 →
      (∀ i2 ∈ is2, i2 ≠ i → outerCells.getD i2 0 ≠ outerCells.getD i 0) →
      outerCells.getD i 0 < emb.length →
      resolveFold numRaw outerCells AC ACells emb is2 = .ok emb2 →
      emb2.getD (outerCells.getD i 0) none = some numRaw
  | [], emb, emb2, i, _, hi, _, _, _, _ => absurd hi (by simp)
  | i0 :: rest, emb, emb2, i, hnd, hi, hk, hdist, hlen, h => by
    unfold resolveFold at h
    split at h
    · exact absurd h (by simp)
    · rename_i emb3 heq
      rcases List.mem_cons.mp hi with rfl | hi
      · have hemb3 : emb3 = emb.set (outerCells.getD i 0) (some numRaw) :=
          resolveStep_k0 numRaw outerCells AC ACells emb emb3 i hk heq
        have hpres : emb2.getD (outerCells.getD i 0) none =
            emb3.getD (outerCells.getD i 0) none := by
          apply resolveFold_preserve numRaw outerCells AC ACells rest emb3 emb2 _ ?_ h
          intro i2 hi2
          exact hdist i2 (List.mem_cons_of_mem _ hi2)
            (fun he => (List.nodup_cons.mp hnd).1 (he ▸ hi2))
        rw [hpres, hemb3]
        exact getD_set_self _ _ _ _ hlen
      · apply resolveFold_k0 numRaw outerCells AC ACells rest emb3 emb2 i
          (List.nodup_cons.mp hnd).2 hi hk
          (fun i2 hi2 => hdist i2 (List.mem_cons_of_mem _ hi2))
          (by rw [resolveStep_length numRaw outerCells AC ACells emb emb3 i0 heq]; exact hlen) h

theorem exists_zero_depth (n : Nat) (k : Nat → Nat) (hn : 0 < n)
    (hstep : ∀ i, i < n → 0 < k i → ∃ j, j < n ∧ k j + 1 = k i) :
    ∃ i, i < n ∧ k i = 0 := by
  obtain ⟨i, hi, hmin⟩ := Finset.exists_min_image (Finset.range n) k ⟨0, Finset.mem_range.mpr hn⟩
  rw [Finset.mem_range] at hi
  by_cases h0 : k i = 0
  · exact ⟨i, hi, h0⟩
  · obtain ⟨j, hj, hkj⟩ := hstep i hi (by omega)
    have := hmin j (Finset.mem_range.mpr hj)
    omega

theorem rewriteRow_fst (emb : List (Option Nat)) (r : Nat × Nat) :
    (rewriteRow emb r).1 = match emb.getD r.1 none with
      | some e => e
      | none => r.1 := rfl

theorem rewriteRow_snd (emb : List (Option Nat)) (r : Nat × Nat) :
    (rewriteRow emb r).2 = match emb.getD r.2 none with
      | some e => e
      | none => r.2 := rfl

/-- Claim C5: the final relabeling maps the infinite-cell sentinel to 0 first
and then scans patches in increasing order, side 0 before side 1, giving each
unseen raw id the next unused final id (this is resolveAndCompact by
construction); consequently, under the structural facts the pipeline
establishes (at least one component; distinct outer cells below the raw
count; recorded ambient components within range; every outer cell carried by
some patch row), a normal return produces patch labels that are exactly the
dense range [0, count), count is returned as the total cell count, and final
id 0 sits exactly on the entries whose resolved raw id is the infinite-cell
sentinel (0 denotes the unbounded region). -/
theorem c5_dense_relabeling (numRaw : Nat) (rawCells : List (Nat × Nat)) (outerCells : List Nat)
    (AC ACells : List (List Nat)) (final : List (Nat × Nat)) (cnt : Nat)
    (hn : 0 < outerCells.length)
    (hnodup : outerCells.Nodup)
    (houter : ∀ o ∈ outerCells, o < numRaw)
    (hmem : ∀ i, i < outerCells.length → ∀ j ∈ AC.getD i [], j < outerCells.length)
    (hcarry : ∀ o ∈ outerCells, ∃ r ∈ rawCells, r.1 = o ∨ r.2 = o)
    (h : resolveAndCompact numRaw rawCells outerCells AC ACells = .ok (final, cnt)) :
    (∀ r ∈ final, r.1 < cnt ∧ r.2 < cnt)
    ∧ (∀ c, c < cnt → ∃ r ∈ final, r.1 = c ∨ r.2 = c)
    ∧ 1 ≤ cnt
    ∧ (∀ emb2, resolveEmbedding numRaw outerCells AC ACells = .ok emb2 →
        ∀ idx, idx < rawCells.length →
          ((final.getD idx (0, 0)).1 = 0 ↔
            (rewriteRow emb2 (rawCells.getD idx (0, 0))).1 = numRaw)
          ∧ ((final.getD idx (0, 0)).2 = 0 ↔
            (rewriteRow emb2 (rawCells.getD idx (0, 0))).2 = numRaw)) := by
  unfold resolveAndCompact at h
  split at h
  · exact absurd h (by simp)
  · rename_i emb hemb
    injection h with h
    have hcand : ∀ i, i < outerCells.length → 0 < (AC.getD i []).length →
        ∃ j, j < outerCells.length ∧ (AC.getD j []).length + 1 = (AC.getD i []).length := by
      intro i hi hk
      obtain ⟨j, hjmem, hjlen⟩ := resolveFold_candidates numRaw outerCells AC ACells
        (List.range outerCells.length) (List.replicate numRaw none) emb hemb i
        (List.mem_range.mpr hi) hk
      exact ⟨j, hmem i hi j hjmem, by omega⟩
    obtain ⟨i0, hi0, hk0⟩ := exists_zero_depth outerCells.length
      (fun i => (AC.getD i []).length) hn hcand
    have houteri0 : outerCells.getD i0 0 < numRaw :=
      houter _ (getD_mem_of_lt outerCells i0 0 hi0)
    have hsent : emb.getD (outerCells.getD i0 0) none = some numRaw := by
      apply resolveFold_k0 numRaw outerCells AC ACells (List.range outerCells.length)
        (List.replicate numRaw none) emb i0 (List.nodup_range _) (List.mem_range.mpr hi0) hk0
        ?_ (by rw [List.length_replicate]; exact houteri0) hemb
      intro i2 hi2 hne2
      rw [List.mem_range] at hi2
      exact nodup_getD_ne outerCells hnodup i2 i0 0 hi2 hi0 hne2
    obtain ⟨r0, hr0mem, hr0⟩ := hcarry _ (getD_mem_of_lt outerCells i0 0 hi0)
    have hsrow : ∃ r2 ∈ rawCells.map (rewriteRow emb), r2.1 = numRaw ∨ r2.2 = numRaw := by
      refine ⟨rewriteRow emb r0, List.mem_map_of_mem _ hr0mem, ?_⟩
      rcases hr0 with hh | hh
      · left
        rw [rewriteRow_fst, hh, hsent]
      · right
        rw [rewriteRow_snd, hh, hsent]
    obtain ⟨ihle, ihbound, ihcov, ihsent, ihlen, ihpos⟩ :=
      compactRows_spec numRaw (rawCells.map (rewriteRow emb)) (compactInit numRaw)
        (compactInit_inv numRaw)
    have hfin : final = (compactRows (compactInit numRaw) (rawCells.map (rewriteRow emb))).1 :=
      (congrArg Prod.fst h).symm
    have hcnt : cnt = (compactRows (compactInit numRaw) (rawCells.map (rewriteRow emb))).2 :=
      (congrArg Prod.snd h).symm
    rw [hfin, hcnt]
    refine ⟨ihbound, fun c hc => ?_, ihle, fun emb2 hemb2 idx hidx => ?_⟩
    · by_cases hc0 : c = 0
      · subst hc0
        obtain ⟨r2, hr2, hs2⟩ := hsrow
        obtain ⟨r3, hr3, hor3⟩ := ihsent r2 hr2 hs2
        refine ⟨r3, hr3, ?_⟩
        rcases hor3 with hh | hh
        · exact Or.inl hh
        · exact Or.inr hh
      · refine ihcov c ?_ hc
        show 1 ≤ c
        omega
    · have hembeq : emb2 = emb := by
        rw [hemb] at hemb2
        injection hemb2 with hh
        exact hh.symm
      rw [hembeq]
      have hpos := ihpos idx (by rw [List.length_map]; exact hidx)
      have hrow : (rawCells.map (rewriteRow emb)).getD idx (0, 0) =
          rewriteRow emb (rawCells.getD idx (0, 0)) :=
        getD_map_of_lt rawCells (rewriteRow emb) idx (0, 0) (0, 0) hidx
      rw [hrow] at hpos
      exact hpos

/-- Witness for c5_dense_relabeling: two components, the second nested in the
first; the relabeled patch rows carry exactly the ids 0, 1, 2 and the count 3
is returned. -/
theorem c5_witness :
    resolveAndCompact 4 [(0, 1), (2, 3)] [0, 2] [[], [0]] [[], [], [1], []] =
      Except.ok ([(0, 1), (1, 2)], 3)
    ∧ ((∀ r ∈ ([(0, 1), (1, 2)] : List (Nat × Nat)), r.1 < 3 ∧ r.2 < 3)
       ∧ (∀ c, c < 3 → ∃ r ∈ ([(0, 1), (1, 2)] : List (Nat × Nat)), r.1 = c ∨ r.2 = c)
       ∧ 1 ≤ 3) :=
  ⟨by decide,
    (fun hall => ⟨hall.1, hall.2.1, hall.2.2.1⟩)
      (c5_dense_relabeling 4 [(0, 1), (2, 3)] [0, 2] [[], [0]] [[], [], [1], []]
        [(0, 1), (1, 2)] 3 (by decide) (by decide) (by decide) (by decide) (by decide)
        (by decide))⟩

/-! ## Claim C10 -/

/-- Claim C10: whenever the patch-level extraction returns normally, the
returned total cell count is at least 1: the compaction maps the
infinite-cell sentinel to final id 0 and starts its counter at 1 before any
patch is scanned, so a successful zero-cell result cannot occur. -/
theorem c10_count_positive (F : List (Nat × Nat × Nat)) (P : List Nat) (uE : List (Nat × Nat))
    (uE2E : List (List Nat)) (EMAP : List Nat) (orderFn : Nat → Nat → List Int → List Nat)
    (outerCells : List Nat) (AC ACells : List (List Nat)) (final : List (Nat × Nat)) (cnt : Nat)
    (h : extract_cells F P uE uE2E EMAP orderFn outerCells AC ACells = .ok (final, cnt)) :
    1 ≤ cnt := by
  unfold extract_cells at h
  split at h
  · exact absurd h (by simp)
  · rename_i res hres
    unfold resolveAndCompact at h
    split at h
    · exact absurd h (by simp)
    · rename_i emb hemb
      injection h with h
      have hcnt : cnt = (compactRows (compactInit res.2.1)
          ((cellsToRows res.1 (numPatchesOf P)).map (rewriteRow emb))).2 :=
        (congrArg Prod.snd h).symm
      obtain ⟨ihle, _, _, _, _, _⟩ := compactRows_spec res.2.1
        ((cellsToRows res.1 (numPatchesOf P)).map (rewriteRow emb)) (compactInit res.2.1)
        (compactInit_inv res.2.1)
      rw [hcnt]
      exact ihle

/-- Witness for c10_count_positive: the single-face pipeline returns 2 cells. -/
theorem c10_witness :
    extract_cells F1 P1 [] [] EMAP1 orderFnId [0] [[]] [[]] = Except.ok ([(0, 1)], 2)
    ∧ 1 ≤ 2 :=
  ⟨by decide,
    c10_count_positive F1 P1 [] [] EMAP1 orderFnId [0] [[]] [[]] [(0, 1)] 2 (by decide)⟩

/-! ## Claim C9 -/

/-- Claim C9: in the face-level overload, every face receives exactly the
(side0, side1) row of the patch it belongs to, so two faces with the same
patch id receive equal rows. -/
theorem c9_faces_follow_patches (F : List (Nat × Nat × Nat)) (P : List Nat) (uE : List (Nat × Nat))
    (uE2E : List (List Nat)) (EMAP : List Nat) (orderFn : Nat → Nat → List Int → List Nat)
    (outerCells : List Nat) (AC ACells : List (List Nat)) (faceCells : List (Nat × Nat))
    (cnt : Nat)
    (h : extract_cells_faces F P uE uE2E EMAP orderFn outerCells AC ACells =
      .ok (faceCells, cnt)) :
    (∃ pc, extract_cells F P uE uE2E EMAP orderFn outerCells AC ACells = .ok (pc, cnt)
       ∧ ∀ i, i < P.length → faceCells.getD i (0, 0) = pc.getD (P.getD i 0) (0, 0))
    ∧ (∀ i j, i < P.length → j < P.length → P.getD i 0 = P.getD j 0 →
        faceCells.getD i (0, 0) = faceCells.getD j (0, 0)) := by
  unfold extract_cells_faces at h
  split at h
  · exact absurd h (by simp)
  · rename_i pc hpc
    injection h with h
    injection h with h1 h2
    subst h2
    have hface : faceCells = P.map (fun p => pc.1.getD p (0, 0)) := h1.symm
    subst hface
    refine ⟨⟨pc.1, hpc, fun i hi => ?_⟩, fun i j hi hj hpij => ?_⟩
    · exact getD_map_of_lt P _ i (0, 0) 0 hi
    · rw [getD_map_of_lt P _ i (0, 0) 0 hi, getD_map_of_lt P _ j (0, 0) 0 hj, hpij]

/-- Witness for c9_faces_follow_patches on the single-face pipeline. -/
theorem c9_witness :
    extract_cells_faces F1 P1 [] [] EMAP1 orderFnId [0] [[]] [[]] = Except.ok ([(0, 1)], 2)
    ∧ (∀ i j, i < P1.length → j < P1.length → P1.getD i 0 = P1.getD j 0 →
        ([((0 : Nat), (1 : Nat))] : List (Nat × Nat)).getD i (0, 0) =
          ([((0 : Nat), (1 : Nat))] : List (Nat × Nat)).getD j (0, 0)) :=
  ⟨by decide,
    (c9_faces_follow_patches F1 P1 [] [] EMAP1 orderFnId [0] [[]] [[]] [(0, 1)] 2 (by decide)).2⟩

end IglExtractCells
